import Mathlib

/-!
Verification of the entity-resolution / deduplication engine of
`oc_graphenricher` (`oc_graphenricher/instancematching/__init__.py`)
against its natural-language specification.

The engine deduplicates a bibliographic graph of Responsible Agents (RA),
Agent Roles (AR), Bibliographic Resources (BR) and Identifiers.  The
definitions below are a shallow embedding of the passes of the
`InstanceMatching` class:

* `instance_matching_ra`  — cluster RAs by shared identifier literal,
  merge each cluster into its lexicographically smallest member, and
  redirect the `held_by` reference of every AR of an absorbed RA;
* `instance_matching_br`  — merge BR clusters; per absorbed BR run the
  container-merge step, the publisher-merge step, the exact-duplicate
  contributor removal, the name-similarity contributor removal and the
  null-`held_by` cleanup;
* `instance_matching_ids` — group identifier objects by (scheme, literal)
  and merge each group into its first-observed member.

External primitives (`oc_ocdm`'s `merge`, `mark_as_to_be_deleted`,
`commit_changes`, and `Levenshtein.distance`) are not part of this
repository; they are embedded following the contract stated by the
specification (§6): `merge(survivor, absorbed)` gives the survivor the
union of the absorbed entity's properties and identifier references and
leaves the absorbed entity itself untouched; `mark_as_to_be_deleted`
tombstones an entity; `commit_changes` physically removes tombstoned
entities; `Levenshtein.distance` is the standard edit distance.
-/

namespace OCGE

/-- The role kind of an Agent Role (`get_role_type` in the source).  The
source only ever distinguishes the publisher kind
(`GraphEntity.iri_publisher`) from everything else; author and editor are
the other kinds appearing in the data model. -/
inductive RoleKind
  | author
  | publisher
  | editor
deriving DecidableEq

/-- A Responsible Agent as seen by the contributor-deduplication code:
its stable URI plus the two name parts read by the name-similarity pass
(`get_given_name`, `get_family_name`). -/
structure Agent where
  uri : String
  givenName : Option String
  familyName : Option String
deriving DecidableEq

/-- An Agent Role (a contributor entry of a document): its stable URI,
its role kind (`get_role_type`) and its `held_by` reference
(`get_is_held_by`), embedded by value.  Equality of `Role`s models
object identity in the source, where distinct graph objects always have
distinct URIs. -/
structure Role where
  uri : String
  kind : RoleKind
  heldBy : Option Agent
deriving DecidableEq

/-- Modelled from the spec: `Levenshtein.distance` of the external
`Levenshtein` package is the standard edit distance (insertions,
deletions, substitutions, unit costs).  Named `levDistance` because
Mathlib already owns the name `levenshtein`. -/
def levDistance : List Char → List Char → Nat
  | [], ys => ys.length
  | x :: xs, [] => (x :: xs).length
  | x :: xs, y :: ys =>
    if x = y then levDistance xs ys
    else 1 + min (levDistance xs ys) (min (levDistance (x :: xs) ys) (levDistance xs (y :: ys)))
termination_by xs ys => xs.length + ys.length
decreasing_by all_goals simp_wf <;> omega

/-- Edit distance on strings, as called on the two computed name strings
(source line 282). -/
def levString (s t : String) : Nat := levDistance s.data t.data

/-- The name string a contributor Role is given by the name-similarity
pass (source lines 266-272 resp. 274-280): start from the empty string;
if the Role is held and the Agent has a given name, append it followed
by one space; if the Role is held and the Agent has a family name,
append it. -/
def contributorName (r : Role) : String :=
  (match r.heldBy with
   | some a =>
     (match a.givenName with
      | some g => g ++ " "
      | none => "")
   | none => "") ++
  (match r.heldBy with
   | some a =>
     (match a.familyName with
      | some f => f
      | none => "")
   | none => "")

/-- The merge condition of the name-similarity pass (source lines
282-283): both computed names non-empty and
`1 - Levenshtein.distance(name1, name2) > 0.95`.  There is no
`ar1 != ar2` test in the source loop, so the condition is also evaluated
on a Role paired with itself. -/
def nameSimCondB (r1 r2 : Role) : Bool :=
  decide (contributorName r1 ≠ "") && decide (contributorName r2 ≠ "") &&
    decide ((0.95 : ℚ) < 1 - (levString (contributorName r1) (contributorName r2) : ℚ))

/-- The merge condition of the exact-duplicate contributor pass (source
lines 245-250): the two Roles are distinct objects, both `held_by`
references are set, and they reference the same Agent.  The role kind is
not part of the condition. -/
def exactDupCondB (r1 r2 : Role) : Bool :=
  decide (r1 ≠ r2) && decide (r1.heldBy ≠ none) && decide (r2.heldBy ≠ none) &&
    decide (r1.heldBy = r2.heldBy)

/-- The non-publisher contributors of a document (source lines 238-239,
261-262, 292-293: `[x for x in contributors if x.get_role_type() !=
GraphEntity.iri_publisher]`). -/
def nonPublishers (doc : List Role) : List Role :=
  doc.filter (fun r => decide (r.kind ≠ RoleKind.publisher))

/-- One outer iteration of the two nested contributor loops, for a fixed
first Role `a`: visit every `b` of the snapshot `cs`; whenever the merge
condition holds, record the merge `(a, b)` and drop `b` from the
document's contributor list (`remove_contributor`).  The snapshot `cs`
is the list the Python loops iterate over; removal from the document
does not affect it. -/
def pairScanStep (cond : Role → Role → Bool) (cs : List Role) (a : Role)
    (st : List (Role × Role) × List Role) : List (Role × Role) × List Role :=
  cs.foldl
    (fun st2 b =>
      if cond a b then (st2.1 ++ [(a, b)], st2.2.filter (fun r => decide (r ≠ b))) else st2)
    st

/-- The two nested contributor loops of `instance_matching_br`: iterate
`a` over the snapshot `cs` and, inside, `b` over the same snapshot,
starting from no recorded merges and the document list `doc`.  Returns
the recorded merges and the document's contributor list after all
removals. -/
def pairScan (cond : Role → Role → Bool) (cs doc : List Role) :
    List (Role × Role) × List Role :=
  cs.foldl (fun st a => pairScanStep cond cs a st) ([], doc)

/-- The name-similarity pass of `instance_matching_br` (source lines
266-289) run over the considered snapshot `cs` with the document's
contributor list `doc`. -/
def nameSimPass (doc cs : List Role) : List (Role × Role) × List Role :=
  pairScan nameSimCondB cs doc

/-- The exact-duplicate contributor pass of `instance_matching_br`
(source lines 237-258): the snapshot is the document's non-publisher
contributor list, and the loops run over it with the condition
`exactDupCondB`. -/
def exactDupPass (doc : List Role) : List (Role × Role) × List Role :=
  pairScan exactDupCondB (nonPublishers doc) doc

/-- The set of contributors the name-similarity pass considers (source
lines 261-264): the document's contributors, minus publisher Roles,
minus the Roles recorded as already merged by the exact-duplicate
pass. -/
def consideredSet (doc am : List Role) : List Role :=
  (doc.filter (fun r => decide (r.kind ≠ RoleKind.publisher))).filter
    (fun r => decide (r ∉ am))

/-- The class of a graph entity appearing in a merge operation, used to
record whether a merge was performed between Agent Roles or between
Responsible Agents. -/
inductive EntityClass
  | agentRole
  | respAgent
deriving DecidableEq

/-- `__get_publisher` (source lines 368-374): the first contributor Role
of the document whose role kind is the publisher kind; `none` when the
document has no publisher Role (the Python function falls through and
returns `None`). -/
def getPublisher (doc : List Role) : Option Role :=
  doc.find? (fun r => decide (r.kind = RoleKind.publisher))

/-- The publisher-merge step of `instance_matching_br` (source lines
227-232): with `publisherFirst` the publisher Role of the canonical
document (computed once per cluster, line 202) and `doc2` the absorbed
document's contributor list, look up the absorbed document's publisher
Role; if both exist and are distinct objects, merge the absorbed
publisher Role into the canonical publisher Role.  The recorded merge
operation carries the class of the merged entities: the step merges
Agent Roles. -/
def publisherStep (publisherFirst : Option Role) (doc2 : List Role) :
    List (EntityClass × String × String) :=
  match getPublisher doc2, publisherFirst with
  | some p, some pf => if p ≠ pf then [(EntityClass.agentRole, pf.uri, p.uri)] else []
  | _, _ => []

/-- A Bibliographic Resource as seen by the container-merge step: its
stable URI and its list of type tags (`get_types`).  `get_types`
returns a fresh list on every call, so the in-place `remove` of one call
does not affect the next. -/
structure BRDoc where
  uri : String
  types : List String
deriving DecidableEq

/-- The generic expression type tag removed before the type
intersection (source lines 217 and 220). -/
def exprTag : String := "http://purl.org/spar/fabio/Expression"

/-- `p1types.remove(URIRef('http://purl.org/spar/fabio/Expression'))`
(source lines 217, 220): Python's `list.remove` drops the first
occurrence and raises `ValueError` when the element is absent; the raise
is modelled by `none`. -/
def removeExpr (ts : List String) : Option (List String) :=
  if exprTag ∈ ts then some (ts.erase exprTag) else none

/-- The inner loop of the container-merge step (source lines 218-225)
for a fixed canonical-side ancestor `p1` with its reduced type list
`p1t`: for every absorbed-side ancestor `p2`, remove the expression tag
from its types (raising if absent) and record the merge of `p2` into
`p1` whenever the reduced type lists intersect. -/
def containerInner (p1 : BRDoc) (p1t : List String) :
    List BRDoc → Option (List (String × String))
  | [] => some []
  | p2 :: rest =>
    match removeExpr p2.types with
    | none => none
    | some p2t =>
      match containerInner p1 p1t rest with
      | none => none
      | some ms =>
        some ((if (p2t.inter p1t) ≠ [] then [(p1.uri, p2.uri)] else []) ++ ms)

/-- The container-merge step of `instance_matching_br` (source lines
211-225): iterate over the canonical document's `part_of` ancestors
(`entity_first_partofs`), remove the expression tag from each (raising
if absent), and run the inner loop over the absorbed document's
ancestors.  Returns the recorded container merges, or `none` when a
`remove` raised and the pass aborted. -/
def containerStep : List BRDoc → List BRDoc → Option (List (String × String))
  | [], _ => some []
  | p1 :: rest, partofs =>
    match removeExpr p1.types with
    | none => none
    | some p1t =>
      match containerInner p1 p1t partofs with
      | none => none
      | some ms =>
        match containerStep rest partofs with
        | none => none
        | some ms2 => some (ms ++ ms2)

/-- Lexicographic comparison of character lists by code point: the
order Python's `sort()` uses on the entities' stable string identities
`str(entity)`. -/
def charListLe : List Char → List Char → Bool
  | [], _ => true
  | _ :: _, [] => false
  | x :: xs, y :: ys => if x = y then charListLe xs ys else decide (x < y)

/-- Lexicographic string comparison (Python string `<=`). -/
def strLe (a b : String) : Bool := charListLe a.data b.data

/-- `clusters_str_list.sort()` (source lines 124 and 199): sort the
stable string identities of a cluster's members lexicographically. -/
def sortByUri (l : List String) : List String :=
  List.insertionSort (fun a b => strLe a b = true) l

/-- The canonical-survivor choice (source lines 124-126 and 199-201):
the head of the lexicographically sorted member list,
`clusters_dict[clusters_str_list[0]]`. -/
def clusterCanonical (l : List String) : Option String := (sortByUri l).head?

/-- An Identifier object: its stable URI (object identity) and its
scheme and literal value (`get_scheme`, `get_literal_value`).
Identifier objects are shared by reference among owning entities. -/
structure IdObj where
  oid : String
  scheme : String
  literal : String
deriving DecidableEq

/-- A Responsible Agent for the agent-resolution and
identifier-unification passes: its stable URI and its identifier
references (`get_identifiers`), held by object URI. -/
structure RAEnt where
  uri : String
  ids : List String
deriving DecidableEq

/-- An Agent Role for the agent-resolution pass: its stable URI and its
`held_by` reference to a Responsible Agent, held by URI. -/
structure AREnt where
  uri : String
  heldBy : Option String
deriving DecidableEq

/-- The graph set restricted to the entity classes the agent-resolution
and identifier-unification passes touch: identifier objects, live
Responsible Agents, live Agent Roles, and the list of entities marked as
to be deleted (`mark_as_to_be_deleted`).  Bibliographic Resources are
omitted: on a BR-free graph `instance_matching_br` builds no clusters
and mutates nothing. -/
structure GState where
  idObjs : List IdObj
  ras : List RAEnt
  ars : List AREnt
  deleted : List String
deriving DecidableEq

/-- Resolve an identifier reference to its object. -/
def findId (s : GState) (oid : String) : Option IdObj :=
  s.idObjs.find? (fun i => decide (i.oid = oid))

/-- The (scheme, literal) bucket key of an identifier reference; the
source keeps a dict of dicts keyed by scheme then literal, which the
pair key models. -/
def idKey (s : GState) (oid : String) : Option String :=
  (findId s oid).map (fun i => i.scheme ++ "#" ++ i.literal)

/-- The identifier-index scan of `instance_matching_ra` (source lines
97-113): walk live RAs in order and, for each identifier, look up the
(scheme, literal) bucket; an empty bucket is filled with the current RA
(the first-seen anchor), an occupied bucket adds an edge between the
anchor and the current RA.  Returns the final buckets and the edge
list of the merge graph. -/
def raScan (s : GState) : List (String × String) × List (String × String) :=
  s.ras.foldl
    (fun st ra =>
      ra.ids.foldl
        (fun st2 oid =>
          match idKey s oid with
          | none => st2
          | some k =>
            match st2.1.find? (fun b => decide (b.1 = k)) with
            | none => (st2.1 ++ [(k, ra.uri)], st2.2)
            | some b => (st2.1, st2.2 ++ [(b.2, ra.uri)]))
        st)
    ([], [])

/-- The edges of the RA merge graph. -/
def raEdges (s : GState) : List (String × String) := (raScan s).2

/-- Add one undirected edge to a list of connected components: all
components touching either endpoint are united, and missing endpoints
are added.  Folding this over an edge list yields the connected
components of the merge graph (`nx.connected_components`). -/
def addEdgeToComps (comps : List (List String)) (e : String × String) :
    List (List String) :=
  let touching := comps.filter (fun c => decide (e.1 ∈ c) || decide (e.2 ∈ c))
  let rest := comps.filter (fun c => !(decide (e.1 ∈ c) || decide (e.2 ∈ c)))
  let merged := touching.foldl (fun acc c => acc ++ c.filter (fun x => decide (x ∉ acc))) []
  let merged := if e.1 ∈ merged then merged else merged ++ [e.1]
  let merged := if e.2 ∈ merged then merged else merged ++ [e.2]
  rest ++ [merged]

/-- Connected components of the merge graph given its edge list. -/
def componentsOf (edges : List (String × String)) : List (List String) :=
  edges.foldl addEdgeToComps []

/-- `sorted(nx.connected_components(merge_graph), key=len, reverse=True)`
(source lines 115 and 190): clusters ordered by decreasing size. -/
def sortBySizeDesc (cs : List (List String)) : List (List String) :=
  List.insertionSort (fun a b => b.length ≤ a.length) cs

/-- `__get_association_ar_ra` (source lines 376-388), read off for one
RA: the Agent Roles whose `held_by` is that RA.  The source builds this
map once, before any merging (line 96), so the passes below take the
association of the initial state. -/
def assocARs (s : GState) (raUri : String) : List String :=
  (s.ars.filter (fun ar => decide (ar.heldBy = some raUri))).map (fun ar => ar.uri)

/-- Modelled from the spec: the external merge primitive
`entity_first.merge(other_entity)` on Responsible Agents (source line
144) — the survivor gains the union of the absorbed entity's identifier
references, the absorbed entity is untouched. -/
def unionIdsInto (s : GState) (canon other : String) : GState :=
  let otherIds := ((s.ras.find? (fun r => decide (r.uri = other))).map RAEnt.ids).getD []
  { s with
      ras := s.ras.map (fun r =>
        if r.uri = canon then
          { r with ids := r.ids ++ otherIds.filter (fun i => decide (i ∉ r.ids)) }
        else r) }

/-- `ar.is_held_by(entity_first)` for every Agent Role associated with
the absorbed RA (source lines 145-150). -/
def redirectARs (s : GState) (arUris : List String) (canon : String) : GState :=
  { s with
      ars := s.ars.map (fun ar =>
        if ar.uri ∈ arUris then { ar with heldBy := some canon } else ar) }

/-- One absorbed member of an RA cluster (source lines 130-153): merge
its identifiers into the canonical member and redirect its associated
Agent Roles.  The source prints "Marking to delete" in debug mode but
never calls `mark_as_to_be_deleted` here, so the deleted list is left
unchanged. -/
def raMergeOne (assoc : String → List String) (canon : String) (s : GState)
    (other : String) : GState :=
  redirectARs (unionIdsInto s canon other) (assoc other) canon

/-- One RA cluster (source lines 118-153): sort the members by their
stable string identity, take the head as canonical, and absorb the rest
in order. -/
def raPassCluster (assoc : String → List String) (s : GState)
    (cluster : List String) : GState :=
  match sortByUri cluster with
  | [] => s
  | canon :: rest => rest.foldl (raMergeOne assoc canon) s

/-- `instance_matching_ra` (source lines 81-156): build the merge graph
over live RAs, extract its connected components sorted by decreasing
size, and merge each cluster into its canonical member, redirecting
Agent Roles via the association map built before any merging. -/
def instanceMatchingRa (s : GState) : GState :=
  let assoc := assocARs s
  let clusters := sortBySizeDesc (componentsOf (raEdges s))
  clusters.foldl (raPassCluster assoc) s

/-- The owner/identifier occurrence list of `instance_matching_ids`
(source lines 309-323): one entry per (owning entity, identifier
reference) pair, in entity order.  Bibliographic Resources would come
first; on the RA-only states modelled here the entity list is the live
RA list. -/
def idEntries (s : GState) : List (String × String) :=
  s.ras.foldl (fun acc ra => acc ++ ra.ids.map (fun oid => (ra.uri, oid))) []

/-- The keys of `literal_to_id` in first-observation order (Python
dicts preserve insertion order). -/
def firstSeenKeys (l : List String) : List String :=
  l.foldl (fun acc k => if k ∈ acc then acc else acc ++ [k]) []

/-- `e.remove_identifier(actual_id)` followed by
`if v[0] not in e.get_identifiers(): e.has_identifier(v[0])` (source
lines 337-340), for one owning entity. -/
def removeIdFromRA (s : GState) (eUri oid canonical : String) : GState :=
  { s with
      ras := s.ras.map (fun r =>
        if r.uri = eUri then
          let ids := r.ids.filter (fun i => decide (i ≠ oid))
          { r with ids := if canonical ∈ ids then ids else ids ++ [canonical] }
        else r) }

/-- One later member `actual` of a (scheme, literal) group (source lines
331-342): merge it into the canonical identifier (the external
primitive; identifier objects own no references of their own, so the
state is unchanged by the merge itself), repoint every owning entity
recorded for it in the prebuilt `id_to_resources` map, and mark it as to
be deleted. -/
def idPassGroup (idToRes : String → List String) (canonical : String)
    (s : GState) (actual : String) : GState :=
  let s2 := (idToRes actual).foldl (fun st e => removeIdFromRA st e actual canonical) s
  { s2 with deleted := s2.deleted ++ [actual] }

/-- `instance_matching_ids` (source lines 302-345): scan all owning
entities once, building `literal_to_id` (per owner-reference, so one
identifier object owned by several entities appears several times in
its group) and `id_to_resources`; then, for every group with more than
one entry, keep the first entry as canonical and absorb every later
entry. -/
def instanceMatchingIds (s : GState) : GState :=
  let entries := idEntries s
  let idToRes : String → List String :=
    fun oid => (entries.filter (fun p => decide (p.2 = oid))).map Prod.fst
  let keyOf : String → String := fun oid => (idKey s oid).getD ""
  let keys := firstSeenKeys (entries.map (fun p => keyOf p.2))
  keys.foldl
    (fun st k =>
      match (entries.filter (fun p => decide (keyOf p.2 = k))).map Prod.snd with
      | [] => st
      | c :: rest => if rest.isEmpty then st else rest.foldl (idPassGroup idToRes c) st)
    s

/-- Modelled from the spec: `g_set.commit_changes()` — the external
store physically removes the entities marked as to be deleted at the
end of each pass. -/
def commitChanges (s : GState) : GState :=
  { idObjs := s.idObjs.filter (fun i => decide (i.oid ∉ s.deleted)),
    ras := s.ras.filter (fun r => decide (r.uri ∉ s.deleted)),
    ars := s.ars.filter (fun a => decide (a.uri ∉ s.deleted)),
    deleted := [] }

/-- One run of the `match` pipeline (source lines 55-69) on a BR-free
graph: the RA pass and its commit, the BR pass (which on a BR-free
graph builds no clusters and mutates nothing) and its commit, and the
identifier pass and its commit. -/
def pipelineOnce (s : GState) : GState :=
  commitChanges (instanceMatchingIds (commitChanges (instanceMatchingRa s)))

/-- A single author Role with a non-empty name, as left in the
considered set of the name-similarity pass after exact-duplicate
removal. -/
def soloAuthor : Role :=
  ⟨"http://e/ar/1", RoleKind.author, some ⟨"http://e/ra/1", some "Jane", some "Doe"⟩⟩

/-- First of a pair of distinct author Roles with identical names held
by distinct Agents. -/
def twinAuthorA : Role :=
  ⟨"http://e/ar/2", RoleKind.author, some ⟨"http://e/ra/2", some "Jane", some "Doe"⟩⟩

/-- Second of a pair of distinct author Roles with identical names held
by distinct Agents. -/
def twinAuthorB : Role :=
  ⟨"http://e/ar/3", RoleKind.author, some ⟨"http://e/ra/3", some "Jane", some "Doe"⟩⟩

/-- The Agent held by both Roles of the mixed-kind duplicate pair. -/
def dupAgent : Agent := ⟨"http://e/ra/4", some "Jane", some "Doe"⟩

/-- An author Role holding `dupAgent`. -/
def dupAuthorRole : Role := ⟨"http://e/ar/5", RoleKind.author, some dupAgent⟩

/-- An editor Role holding the same `dupAgent`. -/
def dupEditorRole : Role := ⟨"http://e/ar/6", RoleKind.editor, some dupAgent⟩

/-- The canonical document's publisher Role, held by one Agent. -/
def pubRoleFirst : Role :=
  ⟨"http://e/ar/p1", RoleKind.publisher, some ⟨"http://e/ra/p1", none, none⟩⟩

/-- The absorbed document's publisher Role, held by a different Agent. -/
def pubRoleOther : Role :=
  ⟨"http://e/ar/p2", RoleKind.publisher, some ⟨"http://e/ra/p2", none, none⟩⟩

/-- An editor Role whose Agent carries only a given name. -/
def editorGivenOnly : Role :=
  ⟨"http://e/ar/9", RoleKind.editor, some ⟨"http://e/ra/9", some "G", none⟩⟩

/-- An ancestor document that does not carry the generic expression type
tag. -/
def untaggedAncestor : BRDoc := ⟨"http://e/br/9", ["http://purl.org/spar/fabio/JournalIssue"]⟩

/-- Two Responsible Agents owning distinct identifier objects with the
same scheme and literal, and one Agent Role held by the RA that will be
absorbed. -/
def twoAgentState : GState :=
  { idObjs := [⟨"http://e/id/1", "http://e/orcid", "0000-0001"⟩,
               ⟨"http://e/id/2", "http://e/orcid", "0000-0001"⟩],
    ras := [⟨"http://e/ra/1", ["http://e/id/1"]⟩, ⟨"http://e/ra/2", ["http://e/id/2"]⟩],
    ars := [⟨"http://e/ar/1", some "http://e/ra/2"⟩],
    deleted := [] }

/-- Two Responsible Agents owning distinct identifier objects with the
same scheme and literal, with no Agent Roles: the minimal input on which
one pipeline run should leave nothing for a second run to merge. -/
def twoAgentNoArState : GState :=
  { idObjs := [⟨"http://e/id/1", "http://e/orcid", "0000-0001"⟩,
               ⟨"http://e/id/2", "http://e/orcid", "0000-0001"⟩],
    ras := [⟨"http://e/ra/1", ["http://e/id/1"]⟩, ⟨"http://e/ra/2", ["http://e/id/2"]⟩],
    ars := [],
    deleted := [] }

/-- One identifier object `id/1` owned by two entities, plus a second
object `id/2` with the same scheme and literal: its (scheme, literal)
group contains two identifier objects but three owner-references, and
the first-observed object `id/1` re-appears as a later group member. -/
def sharedIdState : GState :=
  { idObjs := [⟨"http://e/id/1", "http://e/doi", "10.1/x"⟩,
               ⟨"http://e/id/2", "http://e/doi", "10.1/x"⟩],
    ras := [⟨"http://e/ra/1", ["http://e/id/1"]⟩,
            ⟨"http://e/ra/2", ["http://e/id/1", "http://e/id/2"]⟩],
    ars := [],
    deleted := [] }

theorem levDistance_self (xs : List Char) : levDistance xs xs = 0 := by
  induction xs with
  | nil => simp [levDistance]
  | cons x rest ih => rw [levDistance, if_pos rfl, ih]

theorem levString_self (s : String) : levString s s = 0 := levDistance_self s.data

theorem pairScanStep_cons (cond : Role → Role → Bool) (b : Role) (rest : List Role)
    (a : Role) (st : List (Role × Role) × List Role) :
    pairScanStep cond (b :: rest) a st =
      pairScanStep cond rest a
        (if cond a b then (st.1 ++ [(a, b)], st.2.filter (fun r => decide (r ≠ b)))
         else st) := rfl

theorem pairScanStep_fst_mem (cond : Role → Role → Bool) (cs : List Role) (a : Role)
    (st : List (Role × Role) × List Role) (x y : Role) :
    (x, y) ∈ (pairScanStep cond cs a st).1 ↔
      (x, y) ∈ st.1 ∨ (x = a ∧ y ∈ cs ∧ cond a y = true) := by
  induction cs generalizing st with
  | nil => simp [pairScanStep]
  | cons b rest ih =>
    rw [pairScanStep_cons, ih]
    by_cases h : cond a b = true
    · rw [if_pos h]
      simp only [List.mem_append, List.mem_singleton, Prod.mk.injEq, List.mem_cons]
      aesop
    · rw [if_neg h]
      simp only [List.mem_cons]
      aesop

theorem pairScanStep_snd_mem (cond : Role → Role → Bool) (cs : List Role) (a : Role)
    (st : List (Role × Role) × List Role) (r : Role) :
    r ∈ (pairScanStep cond cs a st).2 ↔
      r ∈ st.2 ∧ ¬(r ∈ cs ∧ cond a r = true) := by
  induction cs generalizing st with
  | nil => simp [pairScanStep]
  | cons b rest ih =>
    rw [pairScanStep_cons, ih]
    by_cases h : cond a b = true
    · rw [if_pos h]
      simp only [List.mem_filter, decide_eq_true_iff, List.mem_cons]
      constructor
      · rintro ⟨⟨hst, hne⟩, hrest⟩
        refine ⟨hst, ?_⟩
        rintro ⟨(hb | hr), hc⟩
        · exact hne hb
        · exact hrest ⟨hr, hc⟩
      · rintro ⟨hst, hno⟩
        refine ⟨⟨hst, fun hb => hno ⟨Or.inl hb, hb ▸ h⟩⟩, ?_⟩
        rintro ⟨hr, hc⟩
        exact hno ⟨Or.inr hr, hc⟩
    · rw [if_neg h]
      simp only [List.mem_cons]
      constructor
      · rintro ⟨hst, hrest⟩
        refine ⟨hst, ?_⟩
        rintro ⟨(hb | hr), hc⟩
        · exact h (hb ▸ hc)
        · exact hrest ⟨hr, hc⟩
      · rintro ⟨hst, hno⟩
        refine ⟨hst, ?_⟩
        rintro ⟨hr, hc⟩
        exact hno ⟨Or.inr hr, hc⟩

theorem pairScanAux_fst (cond : Role → Role → Bool) (cs l : List Role)
    (st : List (Role × Role) × List Role) (x y : Role) :
    (x, y) ∈ (l.foldl (fun st2 a => pairScanStep cond cs a st2) st).1 ↔
      (x, y) ∈ st.1 ∨ (x ∈ l ∧ y ∈ cs ∧ cond x y = true) := by
  induction l generalizing st with
  | nil => simp
  | cons a rest ih =>
    rw [List.foldl_cons, ih, pairScanStep_fst_mem]
    simp only [List.mem_cons]
    constructor
    · rintro ((hst | ⟨hx, hy, hc⟩) | ⟨hx, hy, hc⟩)
      · exact Or.inl hst
      · exact Or.inr ⟨Or.inl hx, hy, hx ▸ hc⟩
      · exact Or.inr ⟨Or.inr hx, hy, hc⟩
    · rintro (hst | ⟨(hx | hx), hy, hc⟩)
      · exact Or.inl (Or.inl hst)
      · exact Or.inl (Or.inr ⟨hx, hy, hx ▸ hc⟩)
      · exact Or.inr ⟨hx, hy, hc⟩

theorem pairScanAux_snd (cond : Role → Role → Bool) (cs l : List Role)
    (st : List (Role × Role) × List Role) (r : Role) :
    r ∈ (l.foldl (fun st2 a => pairScanStep cond cs a st2) st).2 ↔
      r ∈ st.2 ∧ ∀ a ∈ l, ¬(r ∈ cs ∧ cond a r = true) := by
  induction l generalizing st with
  | nil => simp
  | cons a rest ih =>
    rw [List.foldl_cons, ih, pairScanStep_snd_mem]
    constructor
    · rintro ⟨⟨hst, ha⟩, hrest⟩
      refine ⟨hst, ?_⟩
      intro a2 ha2
      rcases List.mem_cons.mp ha2 with h2 | h2
      · exact h2 ▸ ha
      · exact hrest a2 h2
    · rintro ⟨hst, hall⟩
      exact ⟨⟨hst, hall a (List.mem_cons_self a rest)⟩,
        fun a2 h2 => hall a2 (List.mem_cons_of_mem a h2)⟩

theorem pairScan_fst_mem (cond : Role → Role → Bool) (cs doc : List Role) (x y : Role) :
    (x, y) ∈ (pairScan cond cs doc).1 ↔ x ∈ cs ∧ y ∈ cs ∧ cond x y = true := by
  rw [pairScan, pairScanAux_fst]
  simp

theorem pairScan_snd_mem (cond : Role → Role → Bool) (cs doc : List Role) (r : Role) :
    r ∈ (pairScan cond cs doc).2 ↔
      r ∈ doc ∧ ∀ a ∈ cs, ¬(r ∈ cs ∧ cond a r = true) := by
  rw [pairScan, pairScanAux_snd]

theorem charListLe_refl (xs : List Char) : charListLe xs xs = true := by
  induction xs with
  | nil => rfl
  | cons x rest ih => simp [charListLe, ih]

theorem charListLe_total (xs ys : List Char) :
    charListLe xs ys = true ∨ charListLe ys xs = true := by
  induction xs generalizing ys with
  | nil => exact Or.inl rfl
  | cons x rest ih =>
    cases ys with
    | nil => exact Or.inr rfl
    | cons y rest2 =>
      by_cases h : x = y
      · subst h
        simpa [charListLe] using ih rest2
      · rcases lt_or_gt_of_ne h with hlt | hgt
        · exact Or.inl (by simp [charListLe, h, hlt])
        · have h2 : y ≠ x := fun e => h e.symm
          exact Or.inr (by simp [charListLe, h2, hgt])

theorem charListLe_trans (xs ys zs : List Char) (h1 : charListLe xs ys = true)
    (h2 : charListLe ys zs = true) : charListLe xs zs = true := by
  induction xs generalizing ys zs with
  | nil => rfl
  | cons x rest ih =>
    cases ys with
    | nil => simp [charListLe] at h1
    | cons y rest2 =>
      cases zs with
      | nil => simp [charListLe] at h2
      | cons z rest3 =>
        by_cases hxy : x = y
        · subst hxy
          by_cases hyz : x = z
          · subst hyz
            simp only [charListLe, if_pos rfl] at h1 h2 ⊢
            exact ih rest2 rest3 h1 h2
          · simp only [charListLe, if_pos rfl] at h1
            simp only [charListLe, if_neg hyz] at h2 ⊢
            exact h2
        · by_cases hyz : y = z
          · subst hyz
            simp only [charListLe, if_neg hxy] at h1 ⊢
            exact h1
          · simp only [charListLe, if_neg hxy] at h1
            simp only [charListLe, if_neg hyz] at h2
            have hlt : x < z :=
              lt_trans (decide_eq_true_iff.mp h1) (decide_eq_true_iff.mp h2)
            simp only [charListLe, if_neg (ne_of_lt hlt)]
            exact decide_eq_true hlt

theorem charListLe_antisymm (xs ys : List Char) (h1 : charListLe xs ys = true)
    (h2 : charListLe ys xs = true) : xs = ys := by
  induction xs generalizing ys with
  | nil =>
    cases ys with
    | nil => rfl
    | cons y rest2 => simp [charListLe] at h2
  | cons x rest ih =>
    cases ys with
    | nil => simp [charListLe] at h1
    | cons y rest2 =>
      by_cases hxy : x = y
      · subst hxy
        simp only [charListLe, if_pos rfl] at h1 h2
        rw [ih rest2 h1 h2]
      · have hyx : y ≠ x := fun e => hxy e.symm
        simp only [charListLe, if_neg hxy] at h1
        simp only [charListLe, if_neg hyx] at h2
        exact absurd (decide_eq_true_iff.mp h1) (asymm (decide_eq_true_iff.mp h2))

instance : IsTotal String (fun a b => strLe a b = true) :=
  ⟨fun a b => charListLe_total a.data b.data⟩

instance : IsTrans String (fun a b => strLe a b = true) :=
  ⟨fun a b c => charListLe_trans a.data b.data c.data⟩

instance : IsAntisymm String (fun a b => strLe a b = true) :=
  ⟨fun a b h1 h2 => String.ext (charListLe_antisymm a.data b.data h1 h2)⟩

theorem removeExpr_eq_none_iff (ts : List String) :
    removeExpr ts = none ↔ exprTag ∉ ts := by
  rw [removeExpr]
  split_ifs with h <;> simp [h]

theorem containerInner_isSome (p1 : BRDoc) (p1t : List String) (p : List BRDoc) :
    (containerInner p1 p1t p).isSome = true ↔ ∀ d ∈ p, exprTag ∈ d.types := by
  induction p with
  | nil => simp [containerInner]
  | cons d rest ih =>
    rw [containerInner]
    cases hre : removeExpr d.types with
    | none =>
      have hni : exprTag ∉ d.types := (removeExpr_eq_none_iff _).mp hre
      simp [hni]
    | some p2t =>
      have hmem : exprTag ∈ d.types := by
        by_contra hno
        rw [(removeExpr_eq_none_iff _).mpr hno] at hre
        cases hre
      cases hrec : containerInner p1 p1t rest with
      | none =>
        have hfail : ¬ ∀ d2 ∈ rest, exprTag ∈ d2.types := by
          rw [← ih, hrec]
          simp
        simp [hmem, hfail]
      | some ms =>
        have hall : ∀ d2 ∈ rest, exprTag ∈ d2.types := by
          rw [← ih, hrec]
          simp
        simp only [Option.isSome_some, true_iff]
        intro d2 hd2
        rcases List.mem_cons.mp hd2 with h | h
        · exact h ▸ hmem
        · exact hall d2 h

/-- C10 (amended): the container-merge step completes without raising
precisely when every ancestor on the canonical document's `part_of`
chain carries the generic expression type tag and, unless the canonical
chain is empty (in which case the absorbed chain is never inspected),
every ancestor on the absorbed document's chain carries it as well; for
any inspected ancestor lacking the tag the list removal raises and the
pass aborts. -/
theorem containerStep_isSome (f p : List BRDoc) :
    (containerStep f p).isSome = true ↔
      (∀ d ∈ f, exprTag ∈ d.types) ∧
        (f = [] ∨ ∀ d ∈ p, exprTag ∈ d.types) := by
  induction f with
  | nil => simp [containerStep]
  | cons d rest ih =>
    rw [containerStep]
    cases hre : removeExpr d.types with
    | none =>
      have hni := (removeExpr_eq_none_iff _).mp hre
      simp [hni]
    | some p1t =>
      dsimp only
      have hmem : exprTag ∈ d.types := by
        by_contra hno
        rw [(removeExpr_eq_none_iff _).mpr hno] at hre
        cases hre
      cases hinner : containerInner d p1t p with
      | none =>
        have hfail : ¬ ∀ d2 ∈ p, exprTag ∈ d2.types := by
          rw [← containerInner_isSome d p1t, hinner]
          simp
        dsimp only
        simp only [Option.isSome_none, Bool.false_eq_true, false_iff]
        rintro ⟨-, (hnil | hp)⟩
        · exact List.cons_ne_nil d rest hnil
        · exact hfail hp
      | some ms =>
        have hok : ∀ d2 ∈ p, exprTag ∈ d2.types := by
          rw [← containerInner_isSome d p1t, hinner]
          simp
        dsimp only
        cases hstep : containerStep rest p with
        | none =>
          have hfail : ¬ ((∀ d2 ∈ rest, exprTag ∈ d2.types) ∧
              (rest = [] ∨ ∀ d2 ∈ p, exprTag ∈ d2.types)) := by
            rw [← ih, hstep]
            simp
          have hnotA : ¬ ∀ d2 ∈ rest, exprTag ∈ d2.types :=
            fun hA => hfail ⟨hA, Or.inr hok⟩
          dsimp only
          simp only [Option.isSome_none, Bool.false_eq_true, false_iff]
          rintro ⟨hall, -⟩
          exact hnotA fun d2 h2 => hall d2 (List.mem_cons_of_mem d h2)
        | some ms2 =>
          have hok2 := ih.mp (by rw [hstep]; rfl)
          dsimp only
          simp only [Option.isSome_some, true_iff]
          refine ⟨?_, Or.inr hok⟩
          intro d2 h2
          rcases List.mem_cons.mp h2 with h | h
          · exact h ▸ hmem
          · exact hok2.1 d2 h

/-- C1: the claim says every merge of the pipeline short-circuits when
survivor and absorbed coincide, and in particular that the
name-similarity pass never merges a contributor Role into itself and
drops it from the document's contributor list.  The code has no
`ar1 != ar2` guard in the name-similarity loops: on a considered set
holding one author Role with a non-empty name, the pass pairs the Role
with itself (its name equals itself, so the similarity is 1 > 0.95),
performs the self-merge, and removes the Role from the document's
contributor list. -/
theorem nameSim_self_merge_and_drop :
    (soloAuthor, soloAuthor) ∈ (nameSimPass [soloAuthor] [soloAuthor]).1 ∧
      soloAuthor ∉ (nameSimPass [soloAuthor] [soloAuthor]).2 := by
  have hname : contributorName soloAuthor = "Jane Doe" := by decide
  have hcond : nameSimCondB soloAuthor soloAuthor = true := by
    simp only [nameSimCondB, hname, levString_self, Nat.cast_zero, Bool.and_eq_true,
      decide_eq_true_iff]
    refine ⟨⟨by decide, by decide⟩, by norm_num⟩
  constructor
  · rw [nameSimPass, pairScan_fst_mem]
    exact ⟨List.mem_singleton_self _, List.mem_singleton_self _, hcond⟩
  · rw [nameSimPass, pairScan_snd_mem]
    rintro ⟨hmem, hall⟩
    exact hall soloAuthor (List.mem_singleton_self _) ⟨hmem, hcond⟩

/-- C2: in the name-similarity pass over a merged document's contributor
list, a pair of distinct author Roles of the considered set is merged,
and the second Role dropped from the list, exactly when both computed
name strings are non-empty and `1 - distance(name1, name2) > 0.95`
(strict): a pair whose similarity is exactly 0.95 is not merged. -/
theorem nameSim_merge_iff (doc cs : List Role) (r1 r2 : Role)
    (h1 : r1 ∈ cs) (h2 : r2 ∈ cs) (_hne : r1 ≠ r2)
    (_hk1 : r1.kind = RoleKind.author) (_hk2 : r2.kind = RoleKind.author) :
    ((r1, r2) ∈ (nameSimPass doc cs).1 ↔
      contributorName r1 ≠ "" ∧ contributorName r2 ≠ "" ∧
        (0.95 : ℚ) < 1 - (levString (contributorName r1) (contributorName r2) : ℚ)) ∧
    (1 - (levString (contributorName r1) (contributorName r2) : ℚ) = 0.95 →
      (r1, r2) ∉ (nameSimPass doc cs).1) ∧
    ((r1, r2) ∈ (nameSimPass doc cs).1 → r2 ∉ (nameSimPass doc cs).2) := by
  have hiff : (r1, r2) ∈ (nameSimPass doc cs).1 ↔
      contributorName r1 ≠ "" ∧ contributorName r2 ≠ "" ∧
        (0.95 : ℚ) < 1 - (levString (contributorName r1) (contributorName r2) : ℚ) := by
    rw [nameSimPass, pairScan_fst_mem]
    simp only [nameSimCondB, Bool.and_eq_true, decide_eq_true_iff]
    constructor
    · rintro ⟨-, -, ⟨ha, hb⟩, hc⟩
      exact ⟨ha, hb, hc⟩
    · rintro ⟨ha, hb, hc⟩
      exact ⟨h1, h2, ⟨ha, hb⟩, hc⟩
  refine ⟨hiff, ?_, ?_⟩
  · intro heq hm
    have hlt := (hiff.mp hm).2.2
    rw [heq] at hlt
    exact lt_irrefl _ hlt
  · intro hm
    have hcond : nameSimCondB r1 r2 = true := by
      rw [nameSimPass, pairScan_fst_mem] at hm
      exact hm.2.2
    rw [nameSimPass, pairScan_snd_mem]
    rintro ⟨-, hall⟩
    exact hall r1 h1 ⟨h2, hcond⟩

/-- Witness for C2: two distinct author Roles with identical non-empty
names in a two-element considered set. -/
theorem nameSim_merge_iff_witness :
    (((twinAuthorA, twinAuthorB) ∈
        (nameSimPass [twinAuthorA, twinAuthorB] [twinAuthorA, twinAuthorB]).1 ↔
      contributorName twinAuthorA ≠ "" ∧ contributorName twinAuthorB ≠ "" ∧
        (0.95 : ℚ) <
          1 - (levString (contributorName twinAuthorA) (contributorName twinAuthorB) : ℚ)) ∧
    (1 - (levString (contributorName twinAuthorA) (contributorName twinAuthorB) : ℚ) = 0.95 →
      (twinAuthorA, twinAuthorB) ∉
        (nameSimPass [twinAuthorA, twinAuthorB] [twinAuthorA, twinAuthorB]).1) ∧
    ((twinAuthorA, twinAuthorB) ∈
        (nameSimPass [twinAuthorA, twinAuthorB] [twinAuthorA, twinAuthorB]).1 →
      twinAuthorB ∉ (nameSimPass [twinAuthorA, twinAuthorB] [twinAuthorA, twinAuthorB]).2)) :=
  nameSim_merge_iff [twinAuthorA, twinAuthorB] [twinAuthorA, twinAuthorB]
    twinAuthorA twinAuthorB (by decide) (by decide) (by decide) (by decide) (by decide)

/-- C3: on a cluster of two Responsible Agents sharing an identifier
literal, with one Agent Role held by the absorbed member, the agent
pass redirects that Role to the canonical member — but contrary to the
claim (and to the function's own docstring) it never marks the absorbed
member as to be deleted, even though no Role references it any more:
the deleted list stays empty and the absorbed member is still live when
the pass completes. -/
theorem raPass_redirects_but_never_tombstones :
    (instanceMatchingRa twoAgentState).ars = [⟨"http://e/ar/1", some "http://e/ra/1"⟩] ∧
    (∀ ar ∈ (instanceMatchingRa twoAgentState).ars, ar.heldBy ≠ some "http://e/ra/2") ∧
    (instanceMatchingRa twoAgentState).deleted = [] ∧
    "http://e/ra/2" ∈ (instanceMatchingRa twoAgentState).ras.map RAEnt.uri := by decide

/-- Counterexample for C4: the exact-duplicate pass merges an author
Role and an editor Role holding the same Agent, although their role
kinds differ — the claim's "precisely when the two Roles have both the
same role_kind and the same held_by" is false.  The symmetric loop
even drops both Roles of the duplicate pair from the contributor
list. -/
theorem exactDup_fires_across_role_kinds :
    (dupAuthorRole, dupEditorRole) ∈ (exactDupPass [dupAuthorRole, dupEditorRole]).1 ∧
    dupAuthorRole.kind ≠ dupEditorRole.kind ∧
    dupEditorRole ∉ (exactDupPass [dupAuthorRole, dupEditorRole]).2 ∧
    dupAuthorRole ∉ (exactDupPass [dupAuthorRole, dupEditorRole]).2 := by decide

/-- C4 (amended): the exact-duplicate pass compares only `held_by`
among non-publisher contributor Roles: an ordered pair is merged
precisely when both Roles are non-publisher contributors, distinct, and
hold the same non-null Agent — the role kind is not compared.  Because
both orientations of a duplicate pair fire, after the pass no two
distinct non-publisher Roles of the processed contributor list hold the
same non-null Agent. -/
theorem exactDup_heldBy_only (doc : List Role) (r1 r2 : Role) :
    ((r1, r2) ∈ (exactDupPass doc).1 ↔
      r1 ∈ nonPublishers doc ∧ r2 ∈ nonPublishers doc ∧ r1 ≠ r2 ∧
        r1.heldBy ≠ none ∧ r2.heldBy ≠ none ∧ r1.heldBy = r2.heldBy) ∧
    (r1 ∈ (exactDupPass doc).2 → r2 ∈ (exactDupPass doc).2 → r1 ≠ r2 →
      r1.kind ≠ RoleKind.publisher → r2.kind ≠ RoleKind.publisher →
      r1.heldBy ≠ none → r1.heldBy ≠ r2.heldBy) := by
  constructor
  · rw [exactDupPass, pairScan_fst_mem]
    simp only [exactDupCondB, Bool.and_eq_true, decide_eq_true_iff]
    tauto
  · intro hm1 hm2 hne hk1 hk2 hhb heq
    rw [exactDupPass, pairScan_snd_mem] at hm1 hm2
    have hr1cs : r1 ∈ nonPublishers doc := by
      rw [nonPublishers, List.mem_filter]
      exact ⟨hm1.1, decide_eq_true hk1⟩
    have hr2cs : r2 ∈ nonPublishers doc := by
      rw [nonPublishers, List.mem_filter]
      exact ⟨hm2.1, decide_eq_true hk2⟩
    have hcond : exactDupCondB r1 r2 = true := by
      simp only [exactDupCondB, Bool.and_eq_true, decide_eq_true_iff]
      exact ⟨⟨⟨hne, hhb⟩, heq ▸ hhb⟩, heq⟩
    exact hm2.2 r1 hr1cs ⟨hr2cs, hcond⟩

/-- Witness for C4 (amended): the amended statement instantiated at the
two-role duplicate document. -/
theorem exactDup_heldBy_only_witness :
    (((dupAuthorRole, dupEditorRole) ∈ (exactDupPass [dupAuthorRole, dupEditorRole]).1 ↔
      dupAuthorRole ∈ nonPublishers [dupAuthorRole, dupEditorRole] ∧
        dupEditorRole ∈ nonPublishers [dupAuthorRole, dupEditorRole] ∧
        dupAuthorRole ≠ dupEditorRole ∧
        dupAuthorRole.heldBy ≠ none ∧ dupEditorRole.heldBy ≠ none ∧
        dupAuthorRole.heldBy = dupEditorRole.heldBy) ∧
    (dupAuthorRole ∈ (exactDupPass [dupAuthorRole, dupEditorRole]).2 →
      dupEditorRole ∈ (exactDupPass [dupAuthorRole, dupEditorRole]).2 →
      dupAuthorRole ≠ dupEditorRole →
      dupAuthorRole.kind ≠ RoleKind.publisher → dupEditorRole.kind ≠ RoleKind.publisher →
      dupAuthorRole.heldBy ≠ none → dupAuthorRole.heldBy ≠ dupEditorRole.heldBy)) :=
  exactDup_heldBy_only [dupAuthorRole, dupEditorRole] dupAuthorRole dupEditorRole

/-- C5: the canonical survivor of a cluster is the member whose stable
string identity is lexicographically smallest, and it is a function of
the cluster's membership alone: any permutation of the member list
yields the same canonical entity. -/
theorem clusterCanonical_least (l : List String) (h : l ≠ []) :
    ∃ m, clusterCanonical l = some m ∧ m ∈ l ∧ (∀ x ∈ l, strLe m x = true) ∧
      ∀ l2, l.Perm l2 → clusterCanonical l2 = some m := by
  have hs : List.Sorted (fun a b => strLe a b = true) (sortByUri l) :=
    List.sorted_insertionSort _ l
  have hp : (sortByUri l).Perm l := List.perm_insertionSort _ l
  obtain ⟨m, rest, hms⟩ : ∃ m rest, sortByUri l = m :: rest := by
    cases hsort : sortByUri l with
    | nil =>
      rw [hsort] at hp
      exact absurd hp.nil_eq.symm h
    | cons m rest => exact ⟨m, rest, rfl⟩
  have hsorted := hms ▸ hs
  have hhead : ∀ b ∈ rest, strLe m b = true := (List.sorted_cons.mp hsorted).1
  refine ⟨m, ?_, ?_, ?_, ?_⟩
  · rw [clusterCanonical, hms]
    rfl
  · exact hp.subset (hms ▸ List.mem_cons_self m rest)
  · intro x hx
    have hx2 : x ∈ m :: rest := hms ▸ hp.symm.subset hx
    rcases List.mem_cons.mp hx2 with hxm | hxr
    · exact hxm ▸ charListLe_refl m.data
    · exact hhead x hxr
  · intro l2 h2
    have heq : sortByUri l = sortByUri l2 :=
      List.eq_of_perm_of_sorted
        (hp.trans (h2.trans (List.perm_insertionSort _ l2).symm)) hs
        (List.sorted_insertionSort _ l2)
    rw [clusterCanonical, ← heq, hms]
    rfl

/-- Witness for C5: a two-member cluster given in reversed order. -/
theorem clusterCanonical_least_witness :
    ∃ m, clusterCanonical ["http://e/ra/2", "http://e/ra/1"] = some m ∧
      m ∈ ["http://e/ra/2", "http://e/ra/1"] ∧
      (∀ x ∈ ["http://e/ra/2", "http://e/ra/1"], strLe m x = true) ∧
      ∀ l2, List.Perm ["http://e/ra/2", "http://e/ra/1"] l2 → clusterCanonical l2 = some m :=
  clusterCanonical_least ["http://e/ra/2", "http://e/ra/1"] (by decide)

/-- C6: the pipeline is not idempotent.  On a graph of two Responsible
Agents owning distinct identifier objects with the same scheme and
literal, one full pipeline run leaves both agents live (the agent pass
never tombstones the absorbed member), both now referencing the same
canonical identifier object; the cluster builder of a second run
therefore finds an edge again (a cluster of size two, hence a merge is
performed), and the second run's identifier pass even tombstones the
shared canonical identifier, changing the live-entity set. -/
theorem pipeline_second_run_still_merges :
    raEdges (pipelineOnce twoAgentNoArState) ≠ [] ∧
    (pipelineOnce (pipelineOnce twoAgentNoArState)).idObjs ≠
      (pipelineOnce twoAgentNoArState).idObjs := by decide

/-- Counterexample for C7: both documents hold publisher Roles whose
held Agents differ, yet no Responsible-Agent merge is performed — the
step merges the publisher Agent Roles themselves, so the claim that the
held Agents are merged is false. -/
theorem publisherStep_merges_roles_not_agents :
    pubRoleFirst.heldBy ≠ pubRoleOther.heldBy ∧
    publisherStep (some pubRoleFirst) [pubRoleOther] =
      [(EntityClass.agentRole, "http://e/ar/p1", "http://e/ar/p2")] ∧
    (∀ m ∈ publisherStep (some pubRoleFirst) [pubRoleOther],
      m.1 ≠ EntityClass.respAgent) := by decide

/-- C7 (amended): during a document merge, if the canonical document
has a publisher Role and the absorbed document has a publisher Role and
the two Roles are distinct objects, then the absorbed document's
publisher Role is merged into the canonical document's publisher Role;
the held Agents themselves are never merged by this step, and no merge
happens in any other case. -/
theorem publisherStep_roles_iff (pfOpt : Option Role) (doc2 : List Role)
    (m : EntityClass × String × String) :
    m ∈ publisherStep pfOpt doc2 ↔
      ∃ p pf, getPublisher doc2 = some p ∧ pfOpt = some pf ∧ p ≠ pf ∧
        m = (EntityClass.agentRole, pf.uri, p.uri) := by
  cases hg : getPublisher doc2 with
  | none =>
    cases pfOpt <;> simp [publisherStep, hg]
  | some p =>
    cases pfOpt with
    | none => simp [publisherStep, hg]
    | some pf =>
      by_cases hne : p ≠ pf
      · simp only [publisherStep, hg, if_pos hne]
        simp only [List.mem_singleton, Option.some.injEq]
        constructor
        · intro hmv
          exact ⟨p, pf, rfl, rfl, hne, hmv⟩
        · rintro ⟨p2, pf2, hp2, hpf2, -, hmv⟩
          rw [hmv, hp2, hpf2]
      · simp only [publisherStep, hg, if_neg hne]
        push_neg at hne
        simp only [List.not_mem_nil, false_iff]
        rintro ⟨p2, pf2, hp2, hpf2, hnn, -⟩
        rw [Option.some.injEq] at hp2 hpf2
        exact hnn (hp2 ▸ hpf2 ▸ hne)

/-- Witness for C7 (amended): the characterization instantiated at the
two concrete publisher Roles. -/
theorem publisherStep_roles_iff_witness :
    ((EntityClass.agentRole, "http://e/ar/p1", "http://e/ar/p2") ∈
        publisherStep (some pubRoleFirst) [pubRoleOther] ↔
      ∃ p pf, getPublisher [pubRoleOther] = some p ∧ some pubRoleFirst = some pf ∧ p ≠ pf ∧
        (EntityClass.agentRole, "http://e/ar/p1", "http://e/ar/p2") =
          (EntityClass.agentRole, pf.uri, p.uri)) :=
  publisherStep_roles_iff (some pubRoleFirst) [pubRoleOther]
    (EntityClass.agentRole, "http://e/ar/p1", "http://e/ar/p2")

/-- C8: the identifier pass groups per owner-reference, not per
identifier object.  On a graph where the identifier object `id/1` is
owned by two entities (plus a second object `id/2` with the same scheme
and literal), the canonical first-observed object `id/1` re-appears as
a later member of its own group, is merged into itself and marked as to
be deleted — while every live owner still references it, so the commit
removes an identifier that is still referenced.  The claim, which says
only the other members of a multi-object group are absorbed and
tombstoned, is false of the code. -/
theorem idPass_tombstones_shared_canonical :
    "http://e/id/1" ∈ (instanceMatchingIds sharedIdState).deleted ∧
    (∀ ra ∈ (instanceMatchingIds sharedIdState).ras, "http://e/id/1" ∈ ra.ids) ∧
    findId (commitChanges (instanceMatchingIds sharedIdState)) "http://e/id/1" = none := by
  decide

/-- Counterexample for C9: the name-similarity pass considers an editor
Role (the source only filters out publishers, not non-authors), and an
Agent with only a given name `G` yields the name string `G` followed by
a trailing space, not exactly `G`. -/
theorem nameDedup_editor_and_trailing_space :
    editorGivenOnly ∈ consideredSet [editorGivenOnly] [] ∧
    editorGivenOnly.kind ≠ RoleKind.author ∧
    contributorName editorGivenOnly = "G " ∧
    ("G " : String) ≠ "G" := by decide

/-- C9 (amended): the name-similarity deduplicator considers every
non-publisher contributor Role not recorded as already merged by the
exact-duplicate pass (editors included, not only authors), and the
computed name is the given name followed by one space, then the family
name, each part present only when set: only a given name `g` yields
`g` with a trailing space, both parts yield `g ++ " " ++ f`, only a
family name yields `f`, and an unheld Role yields the empty string. -/
theorem consideredSet_and_name_shape (doc am : List Role) (r : Role) (u : String)
    (k : RoleKind) (au : String) (g f : String) :
    (r ∈ consideredSet doc am ↔ r ∈ doc ∧ r.kind ≠ RoleKind.publisher ∧ r ∉ am) ∧
    contributorName ⟨u, k, some ⟨au, some g, none⟩⟩ = g ++ " " ∧
    contributorName ⟨u, k, some ⟨au, some g, some f⟩⟩ = g ++ " " ++ f ∧
    contributorName ⟨u, k, some ⟨au, none, some f⟩⟩ = f ∧
    contributorName ⟨u, k, none⟩ = "" := by
  refine ⟨?_, ?_, ?_, ?_, ?_⟩
  · rw [consideredSet]
    simp only [List.mem_filter, decide_eq_true_iff]
    tauto
  · simp [contributorName]
  · simp [contributorName, String.append_assoc]
  · simp [contributorName]
  · simp [contributorName]

/-- Witness for C9 (amended): the statement instantiated at the concrete
editor Role and concrete name parts. -/
theorem consideredSet_and_name_shape_witness :
    ((editorGivenOnly ∈ consideredSet [editorGivenOnly] [] ↔
      editorGivenOnly ∈ [editorGivenOnly] ∧
        editorGivenOnly.kind ≠ RoleKind.publisher ∧ editorGivenOnly ∉ ([] : List Role)) ∧
    contributorName ⟨"u", RoleKind.author, some ⟨"a", some "G", none⟩⟩ = "G" ++ " " ∧
    contributorName ⟨"u", RoleKind.author, some ⟨"a", some "G", some "F"⟩⟩ =
      "G" ++ " " ++ "F" ∧
    contributorName ⟨"u", RoleKind.author, some ⟨"a", none, some "F"⟩⟩ = "F" ∧
    contributorName ⟨"u", RoleKind.author, none⟩ = "") :=
  consideredSet_and_name_shape [editorGivenOnly] [] editorGivenOnly "u"
    RoleKind.author "a" "G" "F"

/-- Counterexample for C10: when the canonical document's `part_of`
chain is empty, the container-merge step completes without raising even
though an ancestor on the absorbed document's chain does not carry the
generic expression type tag — the claim that the pass completes only
when every ancestor on both chains carries the tag is false. -/
theorem containerStep_completes_without_tag :
    (containerStep [] [untaggedAncestor]).isSome = true ∧
    exprTag ∉ untaggedAncestor.types := by decide

end OCGE
